import Mathlib

/-!
Shallow embedding of the data-merge engine of `pyslater_for_flame.py`
(the `PySlater` class): the Token Codec, Keyword Scanner, Row Expander,
Sanitizer, Path Resolver, Template Writer, Overwrite Arbiter, Manifest
Writer and the Run Orchestrator, together with theorems settling the
frozen claims about them.

Python strings are modelled as Lean `String`s, Python `dict`s as
association lists (a dict built from a sequence of pairs keeps the last
binding for a duplicated key, so such dicts are stored reversed and read
with first-match `List.lookup`), and fallible Python operations (`int`,
`chr`, uncaught exceptions) as `Option`/`Except` values.  All definitions
are structurally recursive so they evaluate on concrete inputs.
-/

/-- Model of Python `str.split()` (no separator argument) on character
lists: split on runs of whitespace, dropping empty tokens.  `acc` holds
the (reversed) characters of the token currently being read. -/
def splitWsAux (acc : List Char) : List Char → List (List Char)
  | [] => if acc = [] then [] else [acc.reverse]
  | c :: cs =>
    if c.isWhitespace then
      if acc = [] then splitWsAux [] cs else acc.reverse :: splitWsAux [] cs
    else splitWsAux (c :: acc) cs

/-- Python `s.split()` on strings. -/
def pySplit (s : String) : List String := (splitWsAux [] s.data).map List.asString

/-- Python `s.startswith(pre)`: prefix test on the character sequence. -/
def pyStartswith (s pre : String) : Bool := pre.data.isPrefixOf s.data

/-- Python `s.endswith(suf)`: suffix test on the character sequence. -/
def pyEndswith (s suf : String) : Bool := suf.data.isSuffixOf s.data

/-- Python `' '.join(tokens)` on character lists. -/
def joinSp : List (List Char) → List Char
  | [] => []
  | [t] => t
  | t :: ts => t ++ ' ' :: joinSp ts

/-- Python slice `l[2:-1]`. -/
def slice2dropLast (l : List α) : List α := (l.drop 2).dropLast

/-- Structural model of Python `int(token)` for non-negative decimal
numerals (the only shape the engine feeds it): `none` models the
`ValueError` raised on any other input. -/
def pyIntNat (s : String) : Option Nat :=
  if s.data ≠ [] ∧ s.data.all Char.isDigit then
    some (s.data.foldl (fun n c => n * 10 + (c.toNat - '0'.toNat)) 0)
  else none

/-- `mapM` over `Option`, written with plain structural recursion. -/
def optionMapM (f : α → Option β) : List α → Option (List β)
  | [] => some []
  | a :: as =>
    match f a with
    | none => none
    | some b =>
      match optionMapM f as with
      | none => none
      | some bs => some (b :: bs)

/-- One decoded character inside `convert_from_ttg_text`: Python
`chr(int(token))`; `none` models the exception raised when the token is
not a decimal numeral or not a valid code point. -/
def decodeTok (t : String) : Option Char :=
  match pyIntNat t with
  | none => none
  | some n => if n.isValidChar then some (Char.ofNat n) else none

/-- `PySlater.convert_from_ttg_text`: split on whitespace, drop the first
two tokens (`Text` and the leading `60`) and the last token (the trailing
`62`), and decode the remainder character by character. -/
def convert_from_ttg_text (decimal_string : String) : Option String :=
  (optionMapM decodeTok (slice2dropLast (pySplit decimal_string))).map List.asString

/-- `PySlater.convert_to_ttg_text`: each character becomes its decimal
code point, space-joined. -/
def convert_to_ttg_text (string : String) : String :=
  List.asString (joinSp (string.data.map (fun c => (Nat.repr c.toNat).data)))

/-- The Keyword Scanner's line test:
`text.startswith('Text 60') and text.endswith('62')`. -/
def isKwLine (text : String) : Bool :=
  pyStartswith text "Text 60" && pyEndswith text "62"

/-- `enumerate(ttg_file_list, i)` fused with the dict comprehension of
`find_ttg_keywords`: collect `(line number, text)` for matching lines. -/
def find_ttg_keywords_from (i : Nat) : List String → List (Nat × String)
  | [] => []
  | text :: rest =>
    if isKwLine text then (i, text) :: find_ttg_keywords_from (i + 1) rest
    else find_ttg_keywords_from (i + 1) rest

/-- `PySlater.find_ttg_keywords`: 1-based line numbers and raw text of the
keyword encoding lines. -/
def find_ttg_keywords (ttg_file_list : List String) : List (Nat × String) :=
  find_ttg_keywords_from 1 ttg_file_list

/-- `PySlater.get_ttg_keywords`: decode every keyword line found by
`find_ttg_keywords`; `none` models the uncaught exception when a token of
some matching line is not numeric. -/
def get_ttg_keywords (template_ttg_rows : List String) : Option (List (Nat × String)) :=
  optionMapM (fun p => (convert_from_ttg_text p.2).map (fun s => (p.1, s)))
    (find_ttg_keywords template_ttg_rows)

/-- A six-line template whose only keyword slot occupies lines 5 and 6:
line 5 is the length header and line 6 encodes `<Name>`. -/
def exTemplate : List String :=
  ["A", "B", "C", "D", "TextLength 6", "Text 60 78 97 109 101 62"]

theorem mem_find_ttg_keywords_from (l : List String) :
    ∀ i j t, ((j, t) ∈ find_ttg_keywords_from i l) ↔
      ∃ k, l[k]? = some t ∧ j = i + k ∧ isKwLine t = true := by
  induction l with
  | nil =>
    intro i j t
    simp [find_ttg_keywords_from]
  | cons a as ih =>
    intro i j t
    constructor
    · intro h
      by_cases ha : isKwLine a
      · rw [find_ttg_keywords_from, if_pos ha] at h
        rcases List.mem_cons.mp h with h1 | h2
        · simp only [Prod.mk.injEq] at h1
          obtain ⟨rfl, rfl⟩ := h1
          exact ⟨0, by simp, by omega, ha⟩
        · rcases (ih (i + 1) j t).mp h2 with ⟨k, hk, hj, ht⟩
          exact ⟨k + 1, by simpa using hk, by omega, ht⟩
      · rw [find_ttg_keywords_from, if_neg ha] at h
        rcases (ih (i + 1) j t).mp h with ⟨k, hk, hj, ht⟩
        exact ⟨k + 1, by simpa using hk, by omega, ht⟩
    · rintro ⟨k, hk, hj, ht⟩
      match k, hk with
      | 0, hk =>
        have ha : a = t := by simpa using hk
        subst ha
        have hj0 : j = i := by omega
        subst hj0
        rw [find_ttg_keywords_from, if_pos ht]
        exact List.mem_cons_self _ _
      | k + 1, hk =>
        have hmem : (j, t) ∈ find_ttg_keywords_from (i + 1) as :=
          (ih (i + 1) j t).mpr ⟨k, by simpa using hk, by omega, ht⟩
        rw [find_ttg_keywords_from]
        by_cases ha : isKwLine a
        · rw [if_pos ha]; exact List.mem_cons_of_mem _ hmem
        · rw [if_neg ha]; exact hmem

theorem optionMapM_mem {α β : Type} (f : α → Option β) :
    ∀ (l : List α) (m : List β), optionMapM f l = some m →
      ∀ b ∈ m, ∃ a ∈ l, f a = some b := by
  intro l
  induction l with
  | nil =>
    intro m hm b hb
    simp [optionMapM] at hm
    subst hm
    simp at hb
  | cons a as ih =>
    intro m hm b hb
    rw [optionMapM] at hm
    match hfa : f a with
    | none => rw [hfa] at hm; simp at hm
    | some b0 =>
      rw [hfa] at hm
      match hrest : optionMapM f as with
      | none => rw [hrest] at hm; simp at hm
      | some ms =>
        rw [hrest] at hm
        simp at hm
        subst hm
        rcases List.mem_cons.mp hb with rfl | hb2
        · exact ⟨a, List.mem_cons_self _ _, hfa⟩
        · rcases ih ms hrest b hb2 with ⟨a2, ha2, hfa2⟩
          exact ⟨a2, List.mem_cons_of_mem _ ha2, hfa2⟩

/-- Claim C1, counterexample: the scanner keys an entry by the keyword
encoding line's own 1-based position, not by the position of the preceding
length-header line, so the template with its slot on lines 5 and 6 yields
the map with single key 6, not the claimed key 5. -/
theorem C1_counterexample :
    get_ttg_keywords exTemplate = some [(6, "Name")] ∧
    get_ttg_keywords exTemplate ≠ some [(5, "Name")] := by
  constructor
  · decide
  · decide

/-- Claim C1 (amended): the scanner maps each keyword encoding line at
1-based position `i` (a line starting with `Text 60` and ending with `62`)
to an entry keyed by `i` itself — not by `i - 1` — holding the decoded
keyword; scanning the template whose only slot occupies lines 5 and 6
yields the map with the single entry keyed 6 and decoded keyword `Name`,
and scanning a template with no such lines yields the empty map. -/
theorem C1_scanner_keyed_by_encoding_line :
    (∀ (lines : List String) (i : Nat) (t : String),
        ((i, t) ∈ find_ttg_keywords lines) ↔
          ∃ k, lines[k]? = some t ∧ i = k + 1 ∧ isKwLine t = true) ∧
    (∀ (lines : List String) (m : List (Nat × String)),
        get_ttg_keywords lines = some m →
          ∀ p ∈ m, ∃ raw, lines[p.1 - 1]? = some raw ∧ isKwLine raw = true ∧
            convert_from_ttg_text raw = some p.2) ∧
    get_ttg_keywords exTemplate = some [(6, "Name")] ∧
    get_ttg_keywords ([] : List String) = some [] := by
  refine ⟨?_, ?_, by decide, by decide⟩
  · intro lines i t
    rw [find_ttg_keywords, mem_find_ttg_keywords_from lines 1 i t]
    constructor
    · rintro ⟨k, hk, hi, ht⟩; exact ⟨k, hk, by omega, ht⟩
    · rintro ⟨k, hk, hi, ht⟩; exact ⟨k, hk, by omega, ht⟩
  · intro lines m hm p hp
    rcases optionMapM_mem _ _ _ hm p hp with ⟨⟨j, raw⟩, hmem, hdec⟩
    rcases (mem_find_ttg_keywords_from lines 1 j raw).mp hmem with ⟨k, hk, hj, ht⟩
    match hc : convert_from_ttg_text raw with
    | none => rw [hc] at hdec; simp at hdec
    | some s =>
      rw [hc] at hdec
      simp at hdec
      subst hdec
      refine ⟨raw, ?_, ht, ?_⟩
      · have hk1 : (j, s).1 - 1 = k := by simp; omega
        rw [hk1]
        exact hk
      · simpa using hc

theorem str_data_append (a b : String) : (a ++ b).data = a.data ++ b.data := rfl

theorem asString_data (s : String) : List.asString s.data = s := rfl

theorem digitChar_isDigit (n : Nat) (h : n < 10) : (Nat.digitChar n).isDigit = true := by
  have hall : ∀ m < 10, (Nat.digitChar m).isDigit = true := by decide
  exact hall n h

theorem toDigitsCore_digits :
    ∀ (fuel n : Nat) (ds : List Char), (∀ c ∈ ds, c.isDigit = true) →
      ∀ c ∈ Nat.toDigitsCore 10 fuel n ds, c.isDigit = true := by
  intro fuel
  induction fuel with
  | zero =>
    intro n ds hds c hc
    rw [Nat.toDigitsCore] at hc
    exact hds c hc
  | succ fuel ih =>
    intro n ds hds c hc
    rw [Nat.toDigitsCore] at hc
    have hcons : ∀ x ∈ Nat.digitChar (n % 10) :: ds, x.isDigit = true := by
      intro x hx
      rcases List.mem_cons.mp hx with rfl | hm
      · exact digitChar_isDigit _ (Nat.mod_lt _ (by norm_num))
      · exact hds _ hm
    by_cases h0 : n / 10 = 0
    · rw [if_pos h0] at hc
      exact hcons c hc
    · rw [if_neg h0] at hc
      exact ih (n / 10) _ hcons c hc

theorem toDigitsCore_length :
    ∀ (fuel n : Nat) (ds : List Char), 0 < fuel →
      ds.length < (Nat.toDigitsCore 10 fuel n ds).length := by
  intro fuel
  induction fuel with
  | zero => intro n ds h; omega
  | succ fuel ih =>
    intro n ds _
    rw [Nat.toDigitsCore]
    by_cases h0 : n / 10 = 0
    · rw [if_pos h0]
      simp
    · rw [if_neg h0]
      by_cases hf : 0 < fuel
      · have := ih (n / 10) (Nat.digitChar (n % 10) :: ds) hf
        simp at this
        omega
      · have hf0 : fuel = 0 := by omega
        subst hf0
        rw [Nat.toDigitsCore]
        simp

theorem repr_data_digits (n : Nat) : ∀ c ∈ (Nat.repr n).data, c.isDigit = true := by
  intro c hc
  have : (Nat.repr n).data = Nat.toDigitsCore 10 (n + 1) n [] := rfl
  rw [this] at hc
  exact toDigitsCore_digits (n + 1) n [] (by simp) c hc

theorem repr_data_ne_nil (n : Nat) : (Nat.repr n).data ≠ [] := by
  have : (Nat.repr n).data = Nat.toDigitsCore 10 (n + 1) n [] := rfl
  rw [this]
  have := toDigitsCore_length (n + 1) n [] (by omega)
  intro hcon
  rw [hcon] at this
  simp at this

theorem isDigit_not_ws (c : Char) (h : c.isDigit = true) : c.isWhitespace = false := by
  by_contra hw
  rw [Bool.not_eq_false] at hw
  have h4 := hw
  simp only [Char.isWhitespace, Bool.or_eq_true, decide_eq_true_eq] at h4
  rcases h4 with ((rfl | rfl) | rfl) | rfl <;> exact absurd h (by decide)

theorem splitWsAux_token :
    ∀ (t acc l : List Char), (∀ c ∈ t, c.isWhitespace = false) →
      (t ≠ [] ∨ acc ≠ []) →
      splitWsAux acc (t ++ ' ' :: l) = (acc.reverse ++ t) :: splitWsAux [] l := by
  intro t
  induction t with
  | nil =>
    intro acc l _ hne
    have hacc : acc ≠ [] := by
      rcases hne with h | h
      · exact absurd rfl h
      · exact h
    simp only [List.nil_append]
    rw [splitWsAux]
    simp [hacc]
  | cons c cs ih =>
    intro acc l hws _
    have hc : c.isWhitespace = false := hws c (List.mem_cons_self _ _)
    simp only [List.cons_append]
    rw [splitWsAux, hc]
    simp only [Bool.false_eq_true, if_false]
    rw [ih (c :: acc) l (fun x hx => hws x (List.mem_cons_of_mem _ hx)) (Or.inr (by simp))]
    simp

theorem splitWsAux_last :
    ∀ (t acc : List Char), (∀ c ∈ t, c.isWhitespace = false) →
      (t ≠ [] ∨ acc ≠ []) →
      splitWsAux acc t = [acc.reverse ++ t] := by
  intro t
  induction t with
  | nil =>
    intro acc _ hne
    have hacc : acc ≠ [] := by
      rcases hne with h | h
      · exact absurd rfl h
      · exact h
    rw [splitWsAux]
    simp [hacc]
  | cons c cs ih =>
    intro acc hws _
    have hc : c.isWhitespace = false := hws c (List.mem_cons_self _ _)
    rw [splitWsAux, hc]
    simp only [Bool.false_eq_true, if_false]
    rw [ih (c :: acc) (fun x hx => hws x (List.mem_cons_of_mem _ hx)) (Or.inr (by simp))]
    simp

/-- A "good" token for whitespace splitting: nonempty and free of
whitespace. -/
def goodTok (t : List Char) : Prop := t ≠ [] ∧ ∀ c ∈ t, c.isWhitespace = false

theorem splitWsAux_joinSp_append :
    ∀ (tokens : List (List Char)) (l : List Char), (∀ tk ∈ tokens, goodTok tk) →
      splitWsAux [] (joinSp tokens ++ ' ' :: l) = tokens ++ splitWsAux [] l := by
  intro tokens
  induction tokens with
  | nil =>
    intro l _
    simp only [joinSp, List.nil_append]
    rw [splitWsAux.eq_def]
    simp
  | cons t ts ih =>
    intro l hgood
    have hgt := hgood t (List.mem_cons_self _ _)
    match ts with
    | [] =>
      simp only [joinSp]
      rw [splitWsAux_token t [] l hgt.2 (Or.inl hgt.1)]
      simp only [joinSp, List.nil_append, List.reverse_nil]
      rw [splitWsAux.eq_def]
      simp
    | t2 :: ts2 =>
      simp only [joinSp, List.append_assoc, List.cons_append]
      rw [splitWsAux_token t [] _ hgt.2 (Or.inl hgt.1)]
      rw [ih l (fun x hx => hgood x (List.mem_cons_of_mem _ hx))]
      simp

theorem splitWsAux_joinSp :
    ∀ (tokens : List (List Char)), tokens ≠ [] → (∀ tk ∈ tokens, goodTok tk) →
      splitWsAux [] (joinSp tokens) = tokens := by
  intro tokens
  induction tokens with
  | nil => intro h; exact absurd rfl h
  | cons t ts ih =>
    intro _ hgood
    have hgt := hgood t (List.mem_cons_self _ _)
    match ts with
    | [] =>
      simp only [joinSp]
      rw [splitWsAux_last t [] hgt.2 (Or.inl hgt.1)]
      simp
    | t2 :: ts2 =>
      simp only [joinSp, List.cons_append]
      rw [splitWsAux_token t [] _ hgt.2 (Or.inl hgt.1)]
      rw [ih (by simp) (fun x hx => hgood x (List.mem_cons_of_mem _ hx))]
      simp

theorem pyIntNat_repr_small : ∀ n, n < 127 → pyIntNat (Nat.repr n) = some n := by decide

theorem decodeTok_repr (c : Char) (h1 : 32 ≤ c.toNat) (h2 : c.toNat ≤ 126) :
    decodeTok (Nat.repr c.toNat) = some c := by
  have hp : pyIntNat (Nat.repr c.toNat) = some c.toNat :=
    pyIntNat_repr_small c.toNat (by omega)
  unfold decodeTok
  rw [hp]
  have hv : c.toNat.isValidChar := Or.inl (by omega)
  simp only [if_pos hv, Char.ofNat_toNat]

theorem goodTok_repr (n : Nat) : goodTok (Nat.repr n).data :=
  ⟨repr_data_ne_nil n, fun c hc => isDigit_not_ws c (repr_data_digits n c hc)⟩

theorem optionMapM_decode_repr :
    ∀ (l : List Char), (∀ c ∈ l, 32 ≤ c.toNat ∧ c.toNat ≤ 126) →
      optionMapM decodeTok (l.map (fun c => Nat.repr c.toNat)) = some l := by
  intro l
  induction l with
  | nil => intro _; rfl
  | cons c cs ih =>
    intro h
    have hc := h c (List.mem_cons_self _ _)
    rw [List.map_cons, optionMapM, decodeTok_repr c hc.1 hc.2,
      ih (fun x hx => h x (List.mem_cons_of_mem _ hx))]

theorem joinSp_map_good (l : List Char) :
    ∀ tk ∈ l.map (fun c => (Nat.repr c.toNat).data), goodTok tk := by
  intro tk htk
  rcases List.mem_map.mp htk with ⟨c, _, rfl⟩
  exact goodTok_repr c.toNat

theorem pySplit_encoded (l : List Char) (hl : l ≠ []) :
    pySplit (List.asString (joinSp (l.map (fun c => (Nat.repr c.toNat).data)))) =
      (l.map (fun c => (Nat.repr c.toNat).data)).map List.asString := by
  rw [pySplit]
  have hd : (List.asString (joinSp (l.map (fun c => (Nat.repr c.toNat).data)))).data =
      joinSp (l.map (fun c => (Nat.repr c.toNat).data)) := rfl
  rw [hd]
  rw [splitWsAux_joinSp _ (by simpa using hl) (joinSp_map_good l)]

/-- Claim C4, counterexample: decoding the raw encoding of the one-character
string `A` yields the empty string, not `A`, because the decoder always
discards the first two and the last space-separated tokens. -/
theorem C4_counterexample :
    convert_from_ttg_text (convert_to_ttg_text "A") = some "" ∧ ("" : String) ≠ "A" :=
  ⟨by decide, by decide⟩

theorem slice2dropLast_cons_cons (x y : α) (l : List α) :
    slice2dropLast (x :: y :: l) = l.dropLast := rfl

theorem dropLast_append_singleton (l : List α) (a : α) : (l ++ [a]).dropLast = l :=
  List.dropLast_concat

theorem map_repr_asString (l : List Char) :
    (l.map (fun c => (Nat.repr c.toNat).data)).map List.asString =
      l.map (fun c => Nat.repr c.toNat) := by
  induction l with
  | nil => rfl
  | cons c cs ih =>
    rw [List.map_cons, List.map_cons, List.map_cons, ih, asString_data]

theorem slice2dropLast_map (f : α → β) (l : List α) :
    slice2dropLast (l.map f) = (slice2dropLast l).map f := by
  rw [slice2dropLast, slice2dropLast]
  rw [← List.map_drop]
  rw [← List.map_dropLast]

/-- Claim C4 (amended): the raw composition drops the first two and the
last character of the input, so the genuine round-trip law holds only for
the full keyword-line shape: for every printable-ASCII string `s`,
decoding the line `Text ` + encode(`<` + s + `>`) recovers exactly `s`,
while decoding encode(`s`) directly yields `s` with its first two and its
last characters removed. -/
theorem C4_roundtrip (s : String) (h : ∀ c ∈ s.data, 32 ≤ c.toNat ∧ c.toNat ≤ 126) :
    convert_from_ttg_text ("Text " ++ convert_to_ttg_text ("<" ++ s ++ ">")) = some s ∧
    convert_from_ttg_text (convert_to_ttg_text s) =
      some (List.asString (slice2dropLast s.data)) := by
  constructor
  · rw [convert_from_ttg_text]
    have hdata : ("Text " ++ convert_to_ttg_text ("<" ++ s ++ ">")).data =
        ['T', 'e', 'x', 't'] ++ ' ' ::
          joinSp (('<' :: s.data ++ ['>']).map (fun c => (Nat.repr c.toNat).data)) := by
      rw [str_data_append]
      have hwrap : ("<" ++ s ++ ">").data = '<' :: s.data ++ ['>'] := by
        rw [str_data_append, str_data_append]
        rfl
      rw [convert_to_ttg_text, hwrap]
      rfl
    have hlist : (('<' :: s.data ++ ['>']).map (fun c => (Nat.repr c.toNat).data)).map
        List.asString =
        List.asString (Nat.repr '<'.toNat).data ::
          (s.data.map (fun c => Nat.repr c.toNat) ++
            [List.asString (Nat.repr '>'.toNat).data]) := by
      rw [List.map_append, List.map_append, List.map_cons, List.map_cons,
        List.cons_append, map_repr_asString]
      rfl
    rw [pySplit, hdata]
    rw [splitWsAux_token ['T', 'e', 'x', 't'] [] _ (by decide) (Or.inl (by decide))]
    rw [splitWsAux_joinSp _ (by simp) (joinSp_map_good _)]
    rw [List.map_cons, hlist]
    rw [slice2dropLast_cons_cons, dropLast_append_singleton]
    rw [optionMapM_decode_repr s.data h]
    rw [Option.map_some', asString_data]
  · match hs : s.data with
    | [] =>
      have hempty : convert_to_ttg_text s = List.asString [] := by
        rw [convert_to_ttg_text, hs]
        rfl
      rw [hempty, convert_from_ttg_text]
      have hps : pySplit (List.asString []) = [] := rfl
      rw [hps]
      rfl
    | c0 :: cs0 =>
      rw [convert_from_ttg_text, convert_to_ttg_text]
      rw [pySplit_encoded s.data (by rw [hs]; simp)]
      rw [slice2dropLast_map, slice2dropLast_map, map_repr_asString]
      have hsub : ∀ c ∈ slice2dropLast s.data, 32 ≤ c.toNat ∧ c.toNat ≤ 126 := by
        intro c hc
        apply h
        rw [slice2dropLast] at hc
        exact List.drop_subset _ _ (List.dropLast_subset _ hc)
      rw [optionMapM_decode_repr _ hsub]
      rw [Option.map_some', hs]

/-- Witness for `C4_roundtrip` at the concrete printable-ASCII string `AB`. -/
theorem C4_roundtrip_witness :
    (∀ c ∈ "AB".data, 32 ≤ c.toNat ∧ c.toNat ≤ 126) ∧
    (convert_from_ttg_text ("Text " ++ convert_to_ttg_text ("<" ++ "AB" ++ ">")) =
        some "AB" ∧
      convert_from_ttg_text (convert_to_ttg_text "AB") =
        some (List.asString (slice2dropLast "AB".data))) :=
  ⟨by decide, C4_roundtrip "AB" (by decide)⟩

/-- Python `s.split(sep)` for a single-character separator, on character
lists: empty pieces are kept. -/
def splitCharAux (sep : Char) (acc : List Char) : List Char → List (List Char)
  | [] => [acc.reverse]
  | c :: cs =>
    if c = sep then acc.reverse :: splitCharAux sep [] cs
    else splitCharAux sep (c :: acc) cs

/-- Python `s.split(sep)` on strings, single-character separator. -/
def pySplitChar (sep : Char) (s : String) : List String :=
  (splitCharAux sep [] s.data).map List.asString

/-- `foldM` over `Option`, written with plain structural recursion. -/
def optionFoldlM (f : γ → α → Option γ) : γ → List α → Option γ
  | acc, [] => some acc
  | acc, a :: as =>
    match f acc a with
    | none => none
    | some acc2 => optionFoldlM f acc2 as

/-- One loop iteration of `expand_row_notation`: `parts` is the element
split on `-` and parsed with `int`; a single part is added as one number,
otherwise every number from `min(parts)` to `max(parts)` is added.
`none` models the uncaught `ValueError` of `int` on a malformed token (the
empty-parts case cannot occur since `split` always returns a piece). -/
def expandElement (acc : Finset Nat) (element : String) : Option (Finset Nat) :=
  match optionMapM pyIntNat (pySplitChar '-' element) with
  | none => none
  | some [] => none
  | some [n] => some (insert n acc)
  | some (p :: ps) =>
    some (acc ∪ Finset.Icc (List.foldl Nat.min p ps) (List.foldl Nat.max p ps))

/-- `PySlater.expand_row_notation`, modelled as the set of integers it
collects (the final `list(...)` conversion only fixes an unspecified
iteration order of that set). -/
def expand_row_notation (string : String) : Option (Finset Nat) :=
  optionFoldlM expandElement ∅ (pySplitChar ',' string)

/-- The claim's reading of one range-notation element: a single integer
contributes a singleton and `a-b` contributes the inclusive,
direction-independent range. -/
def rangeMembers (element : String) : Option (Finset Nat) :=
  match optionMapM pyIntNat (pySplitChar '-' element) with
  | some [a] => some {a}
  | some [a, b] => some (Finset.Icc (Nat.min a b) (Nat.max a b))
  | _ => none

theorem expand_fold_spec :
    ∀ (L : List String) (acc : Finset Nat),
      (∀ e ∈ L, (rangeMembers e).isSome = true) →
      ∃ S, optionFoldlM expandElement acc L = some S ∧
        ∀ n, n ∈ S ↔ n ∈ acc ∨ ∃ e ∈ L, ∃ T, rangeMembers e = some T ∧ n ∈ T := by
  intro L
  induction L with
  | nil =>
    intro acc _
    exact ⟨acc, rfl, by simp⟩
  | cons e es ih =>
    intro acc h
    have he := h e (List.mem_cons_self _ _)
    have hrest : ∀ x ∈ es, (rangeMembers x).isSome = true :=
      fun x hx => h x (List.mem_cons_of_mem _ hx)
    match hp : optionMapM pyIntNat (pySplitChar '-' e) with
    | none => rw [rangeMembers, hp] at he; simp at he
    | some [] => rw [rangeMembers, hp] at he; simp at he
    | some [a] =>
      have hexp : expandElement acc e = some (insert a acc) := by
        rw [expandElement, hp]
      have hrm : rangeMembers e = some {a} := by
        rw [rangeMembers, hp]
      rcases ih (insert a acc) hrest with ⟨S, hS, hmem⟩
      refine ⟨S, ?_, ?_⟩
      · rw [optionFoldlM, hexp]
        exact hS
      · intro n
        rw [hmem n]
        constructor
        · rintro (hin | ⟨x, hx, T, hT, hnT⟩)
          · rcases Finset.mem_insert.mp hin with rfl | hacc
            · exact Or.inr ⟨e, List.mem_cons_self _ _, {n}, by rw [hrm], by simp⟩
            · exact Or.inl hacc
          · exact Or.inr ⟨x, List.mem_cons_of_mem _ hx, T, hT, hnT⟩
        · rintro (hacc | ⟨x, hx, T, hT, hnT⟩)
          · exact Or.inl (Finset.mem_insert_of_mem hacc)
          · rcases List.mem_cons.mp hx with rfl | hx2
            · rw [hrm] at hT
              have hTs : T = {a} := by
                injection hT with hT2
                exact hT2.symm
              subst hTs
              have : n = a := by simpa using hnT
              subst this
              exact Or.inl (Finset.mem_insert_self _ _)
            · exact Or.inr ⟨x, hx2, T, hT, hnT⟩
    | some [a, b] =>
      have hexp : expandElement acc e =
          some (acc ∪ Finset.Icc (Nat.min a b) (Nat.max a b)) := by
        rw [expandElement, hp]
        rfl
      have hrm : rangeMembers e = some (Finset.Icc (Nat.min a b) (Nat.max a b)) := by
        rw [rangeMembers, hp]
      rcases ih (acc ∪ Finset.Icc (Nat.min a b) (Nat.max a b)) hrest with ⟨S, hS, hmem⟩
      refine ⟨S, ?_, ?_⟩
      · rw [optionFoldlM, hexp]
        exact hS
      · intro n
        rw [hmem n]
        constructor
        · rintro (hin | ⟨x, hx, T, hT, hnT⟩)
          · rcases Finset.mem_union.mp hin with hacc | hicc
            · exact Or.inl hacc
            · exact Or.inr ⟨e, List.mem_cons_self _ _, _, hrm, hicc⟩
          · exact Or.inr ⟨x, List.mem_cons_of_mem _ hx, T, hT, hnT⟩
        · rintro (hacc | ⟨x, hx, T, hT, hnT⟩)
          · exact Or.inl (Finset.mem_union_left _ hacc)
          · rcases List.mem_cons.mp hx with rfl | hx2
            · rw [hrm] at hT
              have hTs : T = Finset.Icc (Nat.min a b) (Nat.max a b) := by
                injection hT with hT2
                exact hT2.symm
              subst hTs
              exact Or.inl (Finset.mem_union_right _ hnT)
            · exact Or.inr ⟨x, hx2, T, hT, hnT⟩
    | some (a :: b :: c :: rest) =>
      rw [rangeMembers, hp] at he
      simp at he

/-- Claim C8 (confirmed): for every valid range-notation string, the set
of numbers collected by `expand_row_notation` is exactly the union of the
listed single integers and of all integers in each inclusive range,
duplicates collapsed, independent of range direction. -/
theorem C8_expand_row_members :
    (∀ (s : String),
      (∀ e ∈ pySplitChar ',' s, (rangeMembers e).isSome = true) →
      ∃ S, expand_row_notation s = some S ∧
        ∀ n, n ∈ S ↔ ∃ e ∈ pySplitChar ',' s, ∃ T, rangeMembers e = some T ∧ n ∈ T) ∧
    expand_row_notation "17-3" = expand_row_notation "3-17" := by
  constructor
  · intro s h
    rcases expand_fold_spec (pySplitChar ',' s) ∅ h with ⟨S, hS, hmem⟩
    refine ⟨S, hS, fun n => ?_⟩
    rw [hmem n]
    simp
  · decide

/-- Witness for `C8_expand_row_members` at the notation `3-17,5`. -/
theorem C8_expand_row_members_witness :
    (∀ e ∈ pySplitChar ',' "3-17,5", (rangeMembers e).isSome = true) ∧
    (∃ S, expand_row_notation "3-17,5" = some S ∧
      ∀ n, n ∈ S ↔ ∃ e ∈ pySplitChar ',' "3-17,5",
        ∃ T, rangeMembers e = some T ∧ n ∈ T) :=
  ⟨by decide, C8_expand_row_members.1 "3-17,5" (by decide)⟩

/-- A regex word character (`\w`) in the ASCII range of interest: letter,
digit or underscore. -/
def isWordChar (c : Char) : Bool := c.isAlphanum || c = '_'

/-- First substitution of `tidy_text`:
`re.sub(r'^[\W_]+|[\W_]+$', '', text)` removes the maximal leading and
trailing runs of characters that are not letters or digits (`[\W_]` is
the complement of `\w` together with the underscore). -/
def stripEnds (l : List Char) : List Char :=
  ((l.dropWhile (fun c => !c.isAlphanum)).reverse.dropWhile
    (fun c => !c.isAlphanum)).reverse

/-- A nonzero decimal digit, the character class `[1-9]` of the
aspect-ratio pattern. -/
def isD19 (c : Char) : Bool := '1' ≤ c && c ≤ '9'

/-- Scanner state for the aspect-ratio substitution: outside any candidate
match, inside the first group (held reversed), just past the colon, or
inside the tail of the second group of a completed match. -/
inductive AspectState
  | scan
  | group (g : List Char)
  | colon (g : List Char)
  | tail

/-- One-pass scanner equivalent to
`re.sub(pat1 + ':' + pat2, group1 + 'x' + group2, text)` for the pattern
`(p+):(p q*)`: a maximal run of `p`-characters followed by `:` and a
`p`-character continues with a maximal `q*` tail; matched occurrences have
their colon replaced by `x`, everything else passes through, and scanning
resumes after each match or at the character that broke one.  The source's
pattern `([1-9]+):([1-9]+[0-9]*)` is `swapAspect isD19 Char.isDigit` and
the claim's `(\d+):(\d+)` is `swapAspect Char.isDigit Char.isDigit`. -/
def swapAspect (p q : Char → Bool) : AspectState → List Char → List Char
  | .scan, [] => []
  | .group g, [] => g.reverse
  | .colon g, [] => g.reverse ++ [':']
  | .tail, [] => []
  | .scan, c :: cs =>
    if p c then swapAspect p q (.group [c]) cs else c :: swapAspect p q .scan cs
  | .group g, c :: cs =>
    if p c then swapAspect p q (.group (c :: g)) cs
    else if c = ':' then swapAspect p q (.colon g) cs
    else g.reverse ++ c :: swapAspect p q .scan cs
  | .colon g, c :: cs =>
    if p c then g.reverse ++ 'x' :: c :: swapAspect p q .tail cs
    else g.reverse ++ ':' :: c :: swapAspect p q .scan cs
  | .tail, c :: cs =>
    if q c then c :: swapAspect p q .tail cs
    else c :: swapAspect p q .scan cs

/-- Third substitution of `tidy_text`: `re.sub(r'\W+', '_', ...)` replaces
every maximal run of non-word characters by a single underscore; the flag
records whether the previous character belonged to such a run. -/
def sanitizeSymbols (inRun : Bool) : List Char → List Char
  | [] => []
  | c :: cs =>
    if isWordChar c then c :: sanitizeSymbols false cs
    else if inRun then sanitizeSymbols true cs
    else '_' :: sanitizeSymbols true cs

/-- Fourth substitution of `tidy_text`: `re.sub(r'(_)\1+', '_', ...)`
collapses every run of underscores to a single one; the flag records
whether the previous character was an underscore. -/
def collapseUnderscores (prev : Bool) : List Char → List Char
  | [] => []
  | c :: cs =>
    if c = '_' then
      if prev then collapseUnderscores true cs
      else '_' :: collapseUnderscores true cs
    else c :: collapseUnderscores false cs

/-- `PySlater.tidy_text`: chop, swap aspect ratios, sanitize symbols to
underscores, collapse duplicate underscores. -/
def tidy_text (text : String) : String :=
  List.asString (collapseUnderscores false (sanitizeSymbols false
    (swapAspect isD19 Char.isDigit .scan (stripEnds text.data))))

/-- The claim's version of the sanitizer: leading/trailing stripping of
non-word characters only (`\W`, so underscores survive), and the
aspect-ratio pattern `(\d+):(\d+)` with plain `\d` in both groups. -/
def tidySpec (text : String) : String :=
  List.asString (collapseUnderscores false (sanitizeSymbols false
    (swapAspect Char.isDigit Char.isDigit .scan
      ((((text.data.dropWhile (fun c => !isWordChar c)).reverse.dropWhile
        (fun c => !isWordChar c)).reverse)))))

/-- Adjacent duplicate underscores test: `true` iff the text contains no
two consecutive underscores. -/
def noDub : List Char → Bool
  | [] => true
  | [_] => true
  | a :: b :: rest => !(a == '_' && b == '_') && noDub (b :: rest)

/-- Head-is-not-underscore test. -/
def headNotUS : List Char → Bool
  | [] => true
  | c :: _ => c != '_'

theorem noDub_cons (c : Char) (X : List Char)
    (h : headNotUS X = true ∨ c ≠ '_') (hX : noDub X = true) :
    noDub (c :: X) = true := by
  match X with
  | [] => rfl
  | x :: xs =>
    rw [noDub, hX]
    simp only [Bool.and_true, Bool.not_eq_eq_eq_not, Bool.not_true, Bool.and_eq_false_imp]
    simp only [Bool.not_and, Bool.or_eq_true, Bool.not_eq_true, beq_eq_false_iff_ne]
    rcases h with h | h
    · rw [headNotUS] at h
      intro _
      simpa using h
    · intro hc
      exact absurd (by simpa using hc) h

theorem collapse_head :
    ∀ (cs : List Char), headNotUS (collapseUnderscores true cs) = true := by
  intro cs
  induction cs with
  | nil => rfl
  | cons c cs ih =>
    rw [collapseUnderscores]
    by_cases hc : c = '_'
    · rw [if_pos hc]
      simpa using ih
    · rw [if_neg hc]
      rw [headNotUS]
      simpa using hc

theorem collapse_noDub :
    ∀ (cs : List Char) (b : Bool), noDub (collapseUnderscores b cs) = true := by
  intro cs
  induction cs with
  | nil => intro b; rfl
  | cons c cs ih =>
    intro b
    rw [collapseUnderscores]
    by_cases hc : c = '_'
    · rw [if_pos hc]
      match b with
      | true =>
        simpa using ih true
      | false =>
        simp only [Bool.false_eq_true, if_false]
        exact noDub_cons '_' _ (Or.inl (collapse_head cs)) (ih true)
    · rw [if_neg hc]
      exact noDub_cons c _ (Or.inr hc) (ih false)

/-- Claim C6, counterexample: the code's aspect-ratio pattern is
`([1-9]+):([1-9]+[0-9]*)`, not `(\d+):(\d+)`: on `10:2` the claimed
algorithm (`tidySpec`) produces `10x2` but `tidy_text` leaves the ratio
unrewritten (the `0` in `10` breaks the `[1-9]+` group) and yields
`10_2`. -/
theorem C6_counterexample :
    tidySpec "10:2" = "10x2" ∧ tidy_text "10:2" = "10_2" ∧
    tidy_text "10:2" ≠ tidySpec "10:2" :=
  ⟨by decide, by decide, by decide⟩

/-- Claim C6 (amended): `tidy_text` strips leading/trailing characters
that are not letters or digits (so underscores are stripped too), rewrites
every `[1-9]+:[1-9]+[0-9]*` occurrence (both numbers must start with a
nonzero digit) to the same digits joined by `x`, collapses each remaining
run of non-word characters to a single underscore, then collapses repeated
underscores; the spec's example still holds, and no output ever contains
doubled underscores. -/
theorem C6_tidy_text :
    tidy_text "  1:1 some/name!! " = "1x1_some_name" ∧
    tidy_text "10:2" = "10_2" ∧
    tidy_text "16:9" = "16x9" ∧
    tidy_text "_x_" = "x" ∧
    (∀ s : String, noDub (tidy_text s).data = true) := by
  refine ⟨by decide, by decide, by decide, by decide, ?_⟩
  intro s
  exact collapse_noDub _ false

/-- `enumerate(rows, i)`. -/
def enumerateFrom (i : Nat) : List α → List (Nat × α)
  | [] => []
  | a :: as => (i, a) :: enumerateFrom (i + 1) as

/-- The line-by-line loop of `PySlater.write_ttg` from 1-based position
`i`: when the following line holds a keyword, emit the freshly computed
`TextLength`/`Text` pair (a keyword missing from the replacement dict
substitutes the empty string); when the current line is the superseded
encoded line, emit nothing; otherwise emit the line verbatim. -/
def write_ttg_from (kw : List (Nat × String)) (repl : List (String × String)) :
    Nat → List String → List String
  | _, [] => []
  | i, text :: rest =>
    match kw.lookup (i + 1) with
    | some keyword =>
      ("TextLength " ++
          Nat.repr (pySplit (convert_to_ttg_text ((repl.lookup keyword).getD ""))).length) ::
        ("Text " ++ convert_to_ttg_text ((repl.lookup keyword).getD "")) ::
          write_ttg_from kw repl (i + 1) rest
    | none =>
      if (kw.lookup i).isSome then write_ttg_from kw repl (i + 1) rest
      else text :: write_ttg_from kw repl (i + 1) rest

/-- `PySlater.write_ttg`, modelled as the list of lines written to the
output file (each `ttg.write(x + '\n')` contributes one line `x`). -/
def write_ttg (template_ttg_rows : List String)
    (template_ttg_keywords : List (Nat × String))
    (ttg_replacements : List (String × String)) : List String :=
  write_ttg_from template_ttg_keywords ttg_replacements 1 template_ttg_rows

/-- The claim's description of what the writer emits for the template line
at 1-based position `i`: a substituted two-line slot whose length header
holds the character count of the substituted value when `i + 1` is keyed,
nothing when `i` itself is keyed, and the line verbatim otherwise. -/
def emitSpec (kw : List (Nat × String)) (repl : List (String × String))
    (i : Nat) (text : String) : List String :=
  match kw.lookup (i + 1) with
  | some keyword =>
    ["TextLength " ++ Nat.repr ((repl.lookup keyword).getD "").length,
      "Text " ++ convert_to_ttg_text ((repl.lookup keyword).getD "")]
  | none => if (kw.lookup i).isSome then [] else [text]

theorem pySplit_convert_length (v : String) :
    (pySplit (convert_to_ttg_text v)).length = v.length := by
  rw [convert_to_ttg_text, pySplit]
  have hd : (List.asString (joinSp (v.data.map (fun c => (Nat.repr c.toNat).data)))).data
      = joinSp (v.data.map (fun c => (Nat.repr c.toNat).data)) := rfl
  rw [hd]
  match hv : v.data with
  | [] =>
    simp only [String.length, hv]
    rfl
  | c :: cs =>
    rw [splitWsAux_joinSp _ (by simp) (joinSp_map_good _)]
    rw [List.length_map, List.length_map]
    simp only [String.length, hv]

theorem write_ttg_from_emitSpec (kw : List (Nat × String))
    (repl : List (String × String)) :
    ∀ (rows : List String) (i : Nat),
      write_ttg_from kw repl i rows =
        (enumerateFrom i rows).flatMap (fun p => emitSpec kw repl p.1 p.2) := by
  intro rows
  induction rows with
  | nil => intro i; rfl
  | cons text rest ih =>
    intro i
    rw [enumerateFrom, List.flatMap_cons]
    rw [write_ttg_from, emitSpec]
    match kw.lookup (i + 1) with
    | some keyword =>
      show ("TextLength " ++
            Nat.repr (pySplit (convert_to_ttg_text ((repl.lookup keyword).getD ""))).length) ::
          ("Text " ++ convert_to_ttg_text ((repl.lookup keyword).getD "")) ::
            write_ttg_from kw repl (i + 1) rest =
        ("TextLength " ++ Nat.repr ((repl.lookup keyword).getD "").length) ::
          ("Text " ++ convert_to_ttg_text ((repl.lookup keyword).getD "")) ::
            (enumerateFrom (i + 1) rest).flatMap (fun p => emitSpec kw repl p.1 p.2)
      rw [ih (i + 1), pySplit_convert_length]
    | none =>
      show (if (kw.lookup i).isSome then write_ttg_from kw repl (i + 1) rest
            else text :: write_ttg_from kw repl (i + 1) rest) =
        (if (kw.lookup i).isSome then ([] : List String) else [text]) ++
          (enumerateFrom (i + 1) rest).flatMap (fun p => emitSpec kw repl p.1 p.2)
      by_cases hk : (kw.lookup i).isSome = true
      · rw [if_pos hk, if_pos hk, ih (i + 1)]
        rfl
      · rw [if_neg hk, if_neg hk, ih (i + 1)]
        rfl

/-- Claim C7 (confirmed): the Template Writer emits, for every template
line at 1-based position `i`, exactly two lines `TextLength <character
count of the substituted value>` and `Text <its codec encoding>` when
`i + 1` is a key of the keyword map (the value being the row mapping's
entry for the keyword, or the empty string when absent), nothing when `i`
itself is a key, and the line verbatim otherwise. -/
theorem C7_writer_emits_per_line (rows : List String) (kw : List (Nat × String))
    (repl : List (String × String)) :
    write_ttg rows kw repl =
      (enumerateFrom 1 rows).flatMap (fun p => emitSpec kw repl p.1 p.2) :=
  write_ttg_from_emitSpec kw repl rows 1

theorem lookup_isSome_iff_mem_keys {α β : Type} [BEq α] [LawfulBEq α] :
    ∀ (l : List (α × β)) (j : α),
      ((l.lookup j).isSome = true) ↔ j ∈ l.map Prod.fst := by
  intro l
  induction l with
  | nil =>
    intro j
    simp
  | cons p ps ih =>
    intro j
    obtain ⟨k, b⟩ := p
    rw [List.lookup_cons]
    by_cases hj : j = k
    · subst hj
      simp
    · have hbeq : (j == k) = false := by simpa using hj
      rw [hbeq]
      simp only [List.map_cons, List.mem_cons]
      rw [ih j]
      constructor
      · intro h; exact Or.inr h
      · rintro (h | h)
        · exact absurd h hj
        · exact h

theorem lookup_mem_values {β : Type} :
    ∀ (l : List (String × β)) (k : String) (v : β),
      l.lookup k = some v → v ∈ l.map Prod.snd := by
  intro l
  induction l with
  | nil => intro k v h; simp [List.lookup] at h
  | cons p ps ih =>
    intro k v h
    obtain ⟨k2, b⟩ := p
    rw [List.lookup_cons] at h
    match hbeq : k == k2 with
    | true =>
      rw [hbeq] at h
      simp only at h
      injection h with h
      subst h
      simp
    | false =>
      rw [hbeq] at h
      simp only at h
      simp only [List.map_cons, List.mem_cons]
      exact Or.inr (ih k v h)

theorem isPrefixOf_pair_append (a b : Char) :
    ∀ (t rest : List Char), 2 ≤ t.length →
      List.isPrefixOf [a, b] (t ++ rest) = List.isPrefixOf [a, b] t := by
  intro t rest h
  match t with
  | [] => simp at h
  | [x] => simp at h
  | x :: y :: t2 => simp [List.isPrefixOf]

theorem repr_startsWith60 :
    ∀ n, n < 127 → 32 ≤ n →
      2 ≤ (Nat.repr n).data.length ∧
      (List.isPrefixOf ['6', '0'] (Nat.repr n).data = true ↔ n = 60) := by decide

theorem repr_endsWith62 :
    ∀ n, n < 127 → 32 ≤ n →
      (List.isPrefixOf ['2', '6'] (Nat.repr n).data.reverse = true ↔ n = 62) := by
  decide

theorem joinSp_cons_eq (t : List Char) (ts : List (List Char)) :
    ∃ rest, joinSp (t :: ts) = t ++ rest := by
  match ts with
  | [] => exact ⟨[], by simp [joinSp]⟩
  | t2 :: ts2 => exact ⟨' ' :: joinSp (t2 :: ts2), rfl⟩

theorem joinSp_concat :
    ∀ (ts : List (List Char)) (t : List Char),
      ∃ front, joinSp (ts ++ [t]) = front ++ t := by
  intro ts
  induction ts with
  | nil =>
    intro t
    exact ⟨[], by simp [joinSp]⟩
  | cons t0 ts0 ih =>
    intro t
    rcases ih t with ⟨front, hf⟩
    match ts0 with
    | [] =>
      refine ⟨t0 ++ [' '], ?_⟩
      show joinSp (t0 :: [t]) = (t0 ++ [' ']) ++ t
      rw [joinSp]
      · simp [joinSp]
      · simp
    | t1 :: ts1 =>
      refine ⟨t0 ++ ' ' :: front, ?_⟩
      show joinSp (t0 :: ((t1 :: ts1) ++ [t])) = (t0 ++ ' ' :: front) ++ t
      rw [List.cons_append, joinSp]
      · rw [← List.cons_append, hf]
        simp
      · simp

theorem textlength_line_not_kw (x : String) :
    isKwLine ("TextLength " ++ x) = false := by
  rw [isKwLine, pyStartswith]
  have hdata2 : ("TextLength " ++ x).data =
      ['T', 'e', 'x', 't', 'L', 'e', 'n', 'g', 't', 'h', ' '] ++ x.data := by
    rw [str_data_append]
  rw [hdata2]
  have hfalse : List.isPrefixOf "Text 60".data
      (['T', 'e', 'x', 't', 'L', 'e', 'n', 'g', 't', 'h', ' '] ++ x.data) = false := by
    have h7 : "Text 60".data = ['T', 'e', 'x', 't', ' ', '6', '0'] := rfl
    rw [h7]
    simp [List.isPrefixOf]
  rw [hfalse, Bool.false_and]

theorem text_line_not_kw (v : String)
    (hv : ∀ c ∈ v.data, 32 ≤ c.toNat ∧ c.toNat ≤ 126)
    (hne : ¬(pyStartswith v "<" = true ∧ pyEndswith v ">" = true)) :
    isKwLine ("Text " ++ convert_to_ttg_text v) = false := by
  by_contra hcontra
  rw [Bool.not_eq_false, isKwLine, Bool.and_eq_true] at hcontra
  obtain ⟨hstart, hend⟩ := hcontra
  have hdata2 : ("Text " ++ convert_to_ttg_text v).data =
      ['T', 'e', 'x', 't', ' '] ++ joinSp (v.data.map (fun c => (Nat.repr c.toNat).data)) := by
    rw [str_data_append]
    rfl
  -- the line must start with the code 60, so v starts with '<'
  rw [pyStartswith, hdata2] at hstart
  have h7 : "Text 60".data = ['T', 'e', 'x', 't', ' ', '6', '0'] := rfl
  rw [h7] at hstart
  have hred : List.isPrefixOf ['T', 'e', 'x', 't', ' ', '6', '0']
      (['T', 'e', 'x', 't', ' '] ++ joinSp (v.data.map (fun c => (Nat.repr c.toNat).data)))
      = List.isPrefixOf ['6', '0']
        (joinSp (v.data.map (fun c => (Nat.repr c.toNat).data))) := by
    simp [List.isPrefixOf]
  rw [hred] at hstart
  match hd : v.data with
  | [] =>
    rw [hd] at hstart
    simp [joinSp, List.isPrefixOf] at hstart
  | c :: cs =>
    rw [hd] at hstart
    rw [List.map_cons] at hstart
    rcases joinSp_cons_eq ((Nat.repr c.toNat).data) (cs.map (fun x => (Nat.repr x.toNat).data))
      with ⟨tailrest, hjoin⟩
    rw [hjoin] at hstart
    have hc := hv c (by rw [hd]; exact List.mem_cons_self _ _)
    have hfact := repr_startsWith60 c.toNat (by omega) hc.1
    rw [isPrefixOf_pair_append '6' '0' _ _ hfact.1] at hstart
    have hc60 : c.toNat = 60 := hfact.2.mp hstart
    have hcLt : c = '<' := by
      have h1 := Char.ofNat_toNat c
      rw [hc60] at h1
      rw [← h1]
    -- the line must end with the code 62, so v ends with '>'
    rcases List.eq_nil_or_concat v.data with hnil | ⟨ys, y, hy⟩
    · rw [hd] at hnil
      simp at hnil
    · rw [List.concat_eq_append] at hy
      rw [pyEndswith, List.isSuffixOf, hdata2, hy] at hend
      rw [List.map_append] at hend
      simp only [List.map_cons, List.map_nil] at hend
      rcases joinSp_concat (ys.map (fun x => (Nat.repr x.toNat).data))
        ((Nat.repr y.toNat).data) with ⟨front, hjc⟩
      rw [hjc] at hend
      rw [List.reverse_append, List.reverse_append] at hend
      have h62 : "62".data.reverse = ['2', '6'] := rfl
      rw [h62] at hend
      rw [List.append_assoc] at hend
      have hy2 := hv y (by rw [hy]; simp)
      have hlen : 2 ≤ (Nat.repr y.toNat).data.reverse.length := by
        rw [List.length_reverse]
        exact (repr_startsWith60 y.toNat (by omega) hy2.1).1
      rw [isPrefixOf_pair_append '2' '6' _ _ hlen] at hend
      have hy62 : y.toNat = 62 := (repr_endsWith62 y.toNat (by omega) hy2.1).mp hend
      have hyGt : y = '>' := by
        have h1 := Char.ofNat_toNat y
        rw [hy62] at h1
        rw [← h1]
      apply hne
      constructor
      · rw [pyStartswith, hd]
        have hlt : "<".data = ['<'] := rfl
        rw [hlt, hcLt]
        simp [List.isPrefixOf]
      · rw [pyEndswith, List.isSuffixOf, hy, hyGt]
        rw [List.reverse_append]
        have hgt : ">".data.reverse = ['>'] := rfl
        rw [hgt]
        simp [List.isPrefixOf]

theorem find_ttg_keywords_from_nil :
    ∀ (l : List String) (i : Nat), (∀ t ∈ l, isKwLine t = false) →
      find_ttg_keywords_from i l = [] := by
  intro l
  induction l with
  | nil => intro i _; rfl
  | cons a as ih =>
    intro i h
    have ha := h a (List.mem_cons_self _ _)
    rw [find_ttg_keywords_from, if_neg (by rw [ha]; simp)]
    exact ih (i + 1) (fun t ht => h t (List.mem_cons_of_mem _ ht))

theorem empty_value_ok :
    (∀ c ∈ ("" : String).data, 32 ≤ c.toNat ∧ c.toNat ≤ 126) ∧
    ¬(pyStartswith "" "<" = true ∧ pyEndswith "" ">" = true) := by
  constructor
  · intro c hc
    simp at hc
  · decide

theorem write_ttg_from_lines_not_kw :
    ∀ (rows : List String) (i : Nat) (kw : List (Nat × String))
      (repl : List (String × String)),
      (∀ j, i ≤ j → (((kw.lookup j).isSome = true) ↔
        (∃ u, rows[j - i]? = some u ∧ isKwLine u = true))) →
      (∀ v ∈ repl.map Prod.snd,
        (∀ c ∈ v.data, 32 ≤ c.toNat ∧ c.toNat ≤ 126) ∧
        ¬(pyStartswith v "<" = true ∧ pyEndswith v ">" = true)) →
      ∀ t ∈ write_ttg_from kw repl i rows, isKwLine t = false := by
  intro rows
  induction rows with
  | nil =>
    intro i kw repl _ _ t ht
    simp [write_ttg_from] at ht
  | cons text rest ih =>
    intro i kw repl hkw hrepl t ht
    have hkw2 : ∀ j, i + 1 ≤ j → (((kw.lookup j).isSome = true) ↔
        (∃ u, rest[j - (i + 1)]? = some u ∧ isKwLine u = true)) := by
      intro j hij
      rw [hkw j (by omega)]
      have hidx : ∀ u : String, (text :: rest)[j - i]? = some u ↔
          rest[j - (i + 1)]? = some u := by
        intro u
        have hsub : j - i = (j - (i + 1)) + 1 := by omega
        rw [hsub]
        simp
      constructor
      · rintro ⟨u, hu, hkwu⟩
        exact ⟨u, (hidx u).mp hu, hkwu⟩
      · rintro ⟨u, hu, hkwu⟩
        exact ⟨u, (hidx u).mpr hu, hkwu⟩
    have hvalue : ∀ keyword : String,
        (∀ c ∈ ((repl.lookup keyword).getD "").data, 32 ≤ c.toNat ∧ c.toNat ≤ 126) ∧
        ¬(pyStartswith ((repl.lookup keyword).getD "") "<" = true ∧
          pyEndswith ((repl.lookup keyword).getD "") ">" = true) := by
      intro keyword
      match hlk : repl.lookup keyword with
      | none => exact empty_value_ok
      | some v => exact hrepl v (lookup_mem_values repl keyword v hlk)
    rw [write_ttg_from] at ht
    match hl : kw.lookup (i + 1) with
    | some keyword =>
      simp only [hl] at ht
      rcases List.mem_cons.mp ht with rfl | ht2
      · exact textlength_line_not_kw _
      · rcases List.mem_cons.mp ht2 with rfl | ht3
        · exact text_line_not_kw _ (hvalue keyword).1 (hvalue keyword).2
        · exact ih (i + 1) kw repl hkw2 hrepl t ht3
    | none =>
      simp only [hl] at ht
      by_cases hs : (kw.lookup i).isSome = true
      · rw [if_pos hs] at ht
        exact ih (i + 1) kw repl hkw2 hrepl t ht
      · rw [if_neg hs] at ht
        rcases List.mem_cons.mp ht with rfl | ht2
        · by_contra hkwt
          rw [Bool.not_eq_false] at hkwt
          apply hs
          rw [hkw i (by omega)]
          refine ⟨t, ?_, hkwt⟩
          simp
        · exact ih (i + 1) kw repl hkw2 hrepl t ht2

/-- Claim C10 (confirmed): when the writer's keyword map has the same keys
as the scanner finds in the template and every replacement value is
printable ASCII and not wrapped in angle brackets, no line of the
generated document is recognized by the Keyword Scanner, so re-scanning a
generated document yields the empty keyword map. -/
theorem C10_generated_documents_not_retemplatable
    (rows : List String) (kwv : List (Nat × String))
    (repl : List (String × String))
    (hkeys : kwv.map Prod.fst = (find_ttg_keywords rows).map Prod.fst)
    (hvals : ∀ v ∈ repl.map Prod.snd,
      (∀ c ∈ v.data, 32 ≤ c.toNat ∧ c.toNat ≤ 126) ∧
      ¬(pyStartswith v "<" = true ∧ pyEndswith v ">" = true)) :
    find_ttg_keywords (write_ttg rows kwv repl) = [] := by
  rw [find_ttg_keywords]
  apply find_ttg_keywords_from_nil
  apply write_ttg_from_lines_not_kw rows 1 kwv repl
  · intro j hij
    rw [lookup_isSome_iff_mem_keys, hkeys]
    constructor
    · intro hmem
      rcases List.mem_map.mp hmem with ⟨⟨j2, u⟩, hmem2, hj2⟩
      simp only at hj2
      rw [hj2] at hmem2
      rcases (mem_find_ttg_keywords_from rows 1 j u).mp hmem2 with ⟨k, hk, hjk, hkwu⟩
      refine ⟨u, ?_, hkwu⟩
      have : j - 1 = k := by omega
      rw [this]
      exact hk
    · rintro ⟨u, hu, hkwu⟩
      apply List.mem_map.mpr
      refine ⟨(j, u), ?_, rfl⟩
      apply (mem_find_ttg_keywords_from rows 1 j u).mpr
      exact ⟨j - 1, hu, by omega, hkwu⟩
  · exact hvals

/-- Witness for `C10_generated_documents_not_retemplatable` on the
six-line example template with its decoded keyword map and a concrete
replacement row. -/
theorem C10_witness :
    ([((6 : Nat), "Name")].map Prod.fst = (find_ttg_keywords exTemplate).map Prod.fst) ∧
    (∀ v ∈ [("Name", "Spot A")].map Prod.snd,
      (∀ c ∈ v.data, 32 ≤ c.toNat ∧ c.toNat ≤ 126) ∧
      ¬(pyStartswith v "<" = true ∧ pyEndswith v ">" = true)) ∧
    find_ttg_keywords (write_ttg exTemplate [((6 : Nat), "Name")] [("Name", "Spot A")]) = [] :=
  ⟨by decide, by decide,
    C10_generated_documents_not_retemplatable exTemplate [((6 : Nat), "Name")]
      [("Name", "Spot A")] (by decide) (by decide)⟩

/-- A parsed field of the output-path pattern after `convert_output_tokens`
has mapped the `<`/`>` token markers to Python format braces: literal
text, an explicit positional field, a named field, or an automatic
(empty-brace) field. -/
inductive FmtPart
  | lit (s : String)
  | pos (i : Nat)
  | nameF (s : String)
  | auto
deriving DecidableEq

/-- The errors of Python `str.format` relevant here: `IndexError`
(positional argument out of range) and `KeyError` (missing named
argument), both caught by the row loop, and `ValueError` (switching
between automatic and manual numbering), which the row loop does not
catch. -/
inductive FmtErr
  | index
  | key
  | value
deriving DecidableEq

/-- Formatting an optional cell: Python renders `None` as `"None"`. -/
def renderCell : Option String → String
  | none => "None"
  | some s => s

/-- The field-by-field interpreter of `str.format`: `autoN` is the
automatic-numbering counter, `usedAuto`/`usedManual` record which
numbering styles have appeared so far. -/
def pyFormatGo (args : List (Option String)) (kwargs : List (String × String)) :
    List FmtPart → String → Nat → Bool → Bool → Except FmtErr String
  | [], acc, _, _, _ => .ok acc
  | .lit s :: rest, acc, autoN, usedAuto, usedManual =>
    pyFormatGo args kwargs rest (acc ++ s) autoN usedAuto usedManual
  | .pos i :: rest, acc, autoN, usedAuto, _ =>
    if usedAuto then .error .value
    else
      match args[i]? with
      | none => .error .index
      | some v => pyFormatGo args kwargs rest (acc ++ renderCell v) autoN usedAuto true
  | .nameF k :: rest, acc, autoN, usedAuto, usedManual =>
    match kwargs.lookup k with
    | none => .error .key
    | some v => pyFormatGo args kwargs rest (acc ++ v) autoN usedAuto usedManual
  | .auto :: rest, acc, autoN, _, usedManual =>
    if usedManual then .error .value
    else
      match args[autoN]? with
      | none => .error .index
      | some v => pyFormatGo args kwargs rest (acc ++ renderCell v) (autoN + 1) true usedManual

/-- Python `pattern.format(*args, **kwargs)` for the token grammar the
engine uses. -/
def pyFormat (pattern : List FmtPart) (args : List (Option String))
    (kwargs : List (String × String)) : Except FmtErr String :=
  pyFormatGo args kwargs pattern "" 0 false false

/-- The positional substitution context built by `run` (lines 827-829):
each cell sanitized, or `None` when the cell is empty. -/
def columnContext (row : List String) : List (Option String) :=
  row.map (fun item => if item = "" then none else some (tidy_text item))

/-- The named substitution context built by `run` (lines 831-834): the
first CSV row zipped with the current row, empty cells omitted, cells
sanitized; a Python dict keeps the last binding of a duplicated header, so
the list is reversed for first-match lookup. -/
def keywordContext (headerRow row : List String) : List (String × String) :=
  (((headerRow.zip row).filter (fun p => p.2 ≠ "")).map
    (fun p => (p.1, tidy_text p.2))).reverse

/-- The Path Resolver step of `run` (lines 824-844): build both contexts
from the current row and format the pattern with them. -/
def resolve_filepath (pattern : List FmtPart) (headerRow row : List String) :
    Except FmtErr String :=
  pyFormat pattern (columnContext row) (keywordContext headerRow row)

/-- Resolvability of one pattern field against a row, as the claim states
it: a positional field needs its cell index to exist (an empty cell still
resolves), a named field needs a header of that text with a non-empty
cell. -/
def refOk (headerRow row : List String) : FmtPart → Prop
  | .lit _ => True
  | .auto => True
  | .pos i => i < row.length
  | .nameF k =>
    ∃ (j : Nat) (cell : String),
      headerRow[j]? = some k ∧ row[j]? = some cell ∧ cell ≠ ""

theorem mem_zip_iff_index {α β : Type} :
    ∀ (l1 : List α) (l2 : List β) (a : α) (b : β),
      ((a, b) ∈ l1.zip l2) ↔ ∃ (j : Nat), l1[j]? = some a ∧ l2[j]? = some b := by
  intro l1
  induction l1 with
  | nil =>
    intro l2 a b
    simp
  | cons x xs ih =>
    intro l2 a b
    match l2 with
    | [] => simp
    | y :: ys =>
      rw [List.zip_cons_cons]
      constructor
      · intro h
        rcases List.mem_cons.mp h with h1 | h2
        · simp only [Prod.mk.injEq] at h1
          exact ⟨0, by simp [h1.1], by simp [h1.2]⟩
        · rcases (ih ys a b).mp h2 with ⟨j, hj1, hj2⟩
          exact ⟨j + 1, by simpa using hj1, by simpa using hj2⟩
      · rintro ⟨j, hj1, hj2⟩
        match j with
        | 0 =>
          simp only [List.getElem?_cons_zero] at hj1 hj2
          injection hj1 with hj1
          injection hj2 with hj2
          subst hj1
          subst hj2
          exact List.mem_cons_self _ _
        | j + 1 =>
          simp only [List.getElem?_cons_succ] at hj1 hj2
          exact List.mem_cons_of_mem _ ((ih ys a b).mpr ⟨j, hj1, hj2⟩)

theorem keywordContext_lookup_isSome (headerRow row : List String) (k : String) :
    (((keywordContext headerRow row).lookup k).isSome = true) ↔
      ∃ (j : Nat) (cell : String),
        headerRow[j]? = some k ∧ row[j]? = some cell ∧ cell ≠ "" := by
  rw [lookup_isSome_iff_mem_keys]
  rw [keywordContext]
  rw [List.map_reverse, List.mem_reverse]
  constructor
  · intro h
    rcases List.mem_map.mp h with ⟨⟨k2, v⟩, hmem, hk⟩
    rcases List.mem_map.mp hmem with ⟨⟨k3, cell⟩, hmem2, hpair⟩
    simp only [Prod.mk.injEq] at hpair
    rcases List.mem_filter.mp hmem2 with ⟨hzip, hcell⟩
    rcases (mem_zip_iff_index headerRow row k3 cell).mp hzip with ⟨j, hj1, hj2⟩
    simp only at hk
    refine ⟨j, cell, ?_, hj2, by simpa using hcell⟩
    rw [← hk, ← hpair.1]
    exact hj1
  · rintro ⟨j, cell, hj1, hj2, hcell⟩
    apply List.mem_map.mpr
    refine ⟨(k, tidy_text cell), ?_, rfl⟩
    apply List.mem_map.mpr
    refine ⟨(k, cell), ?_, rfl⟩
    apply List.mem_filter.mpr
    refine ⟨(mem_zip_iff_index headerRow row k cell).mpr ⟨j, hj1, hj2⟩, by simpa using hcell⟩

/-- Resolvability of one field against the two contexts, at the level the
format interpreter sees. -/
def ctxOk (args : List (Option String)) (kwargs : List (String × String)) :
    FmtPart → Prop
  | .lit _ => True
  | .auto => True
  | .pos i => i < args.length
  | .nameF k => ((kwargs.lookup k).isSome = true)

theorem pyFormatGo_isOk :
    ∀ (parts : List FmtPart) (args : List (Option String))
      (kwargs : List (String × String)) (acc : String) (autoN : Nat)
      (um : Bool), FmtPart.auto ∉ parts →
      ((pyFormatGo args kwargs parts acc autoN false um).isOk = true ↔
        ∀ p ∈ parts, ctxOk args kwargs p) := by
  intro parts
  induction parts with
  | nil =>
    intro args kwargs acc autoN um _
    simp [pyFormatGo, Except.isOk, Except.toBool]
  | cons p ps ih =>
    intro args kwargs acc autoN um hnoauto
    have hnoauto2 : FmtPart.auto ∉ ps := fun h => hnoauto (List.mem_cons_of_mem _ h)
    match p with
    | .lit s =>
      rw [pyFormatGo]
      rw [ih args kwargs (acc ++ s) autoN um hnoauto2]
      constructor
      · intro h q hq
        rcases List.mem_cons.mp hq with rfl | hq2
        · exact trivial
        · exact h q hq2
      · intro h q hq
        exact h q (List.mem_cons_of_mem _ hq)
    | .pos i =>
      rw [pyFormatGo]
      simp only [Bool.false_eq_true, if_false]
      match hi : args[i]? with
      | none =>
        simp only [Except.isOk, Except.toBool]
        constructor
        · intro h
          simp at h
        · intro h
          exfalso
          have hcx := h (FmtPart.pos i) (List.mem_cons_self _ _)
          rw [ctxOk] at hcx
          have hlen := List.getElem?_eq_none_iff.mp hi
          omega
      | some v =>
        rw [ih args kwargs (acc ++ renderCell v) autoN true hnoauto2]
        constructor
        · intro h q hq
          rcases List.mem_cons.mp hq with rfl | hq2
          · rw [ctxOk]
            by_cases hlt : i < args.length
            · exact hlt
            · rw [List.getElem?_eq_none_iff.mpr (by omega)] at hi
              simp at hi
          · exact h q hq2
        · intro h q hq
          exact h q (List.mem_cons_of_mem _ hq)
    | .nameF k =>
      rw [pyFormatGo]
      match hk : kwargs.lookup k with
      | none =>
        simp only [Except.isOk, Except.toBool]
        constructor
        · intro h
          simp at h
        · intro h
          have := h (FmtPart.nameF k) (List.mem_cons_self _ _)
          rw [ctxOk, hk] at this
          simp at this
      | some v =>
        rw [ih args kwargs (acc ++ v) autoN um hnoauto2]
        constructor
        · intro h q hq
          rcases List.mem_cons.mp hq with rfl | hq2
          · rw [ctxOk, hk]
            rfl
          · exact h q hq2
        · intro h q hq
          exact h q (List.mem_cons_of_mem _ hq)
    | .auto =>
      exact absurd (List.mem_cons_self _ _) hnoauto

deriving instance DecidableEq for Except

/-- Claim C5, counterexample: a positional token referring to an in-range
cell whose value is the empty string does not fail path resolution; it
resolves to the placeholder string `None` (Python's rendering of the
`None` entry the loop puts in the positional context). -/
theorem C5_counterexample :
    resolve_filepath [FmtPart.pos 0] ["Title"] [""] = .ok "None" := by decide

/-- Claim C5 (amended): path resolution fails exactly when some referenced
token is unresolvable, where a named token is unresolvable when no column
of that header text holds a non-empty value, and a positional token is
unresolvable only when its index is out of range — a positional token
referencing an in-range empty cell instead resolves to the placeholder
`None`. -/
theorem C5_resolution_characterized :
    (∀ (pattern : List FmtPart) (headerRow row : List String),
      FmtPart.auto ∉ pattern →
      ((resolve_filepath pattern headerRow row).isOk = true ↔
        ∀ p ∈ pattern, refOk headerRow row p)) ∧
    resolve_filepath [FmtPart.pos 0] ["Title"] [""] = .ok "None" := by
  constructor
  · intro pattern headerRow row hnoauto
    rw [resolve_filepath, pyFormat]
    rw [pyFormatGo_isOk pattern _ _ "" 0 false hnoauto]
    constructor
    · intro h p hp
      have hc := h p hp
      match p with
      | .lit s => rw [refOk]; trivial
      | .auto => rw [refOk]; trivial
      | .pos i =>
        rw [ctxOk, columnContext, List.length_map] at hc
        rw [refOk]
        exact hc
      | .nameF k =>
        rw [ctxOk] at hc
        rw [refOk]
        exact (keywordContext_lookup_isSome headerRow row k).mp hc
    · intro h p hp
      have hc := h p hp
      match p with
      | .lit s => rw [ctxOk]; trivial
      | .auto => rw [ctxOk]; trivial
      | .pos i =>
        rw [refOk] at hc
        rw [ctxOk, columnContext, List.length_map]
        exact hc
      | .nameF k =>
        rw [refOk] at hc
        rw [ctxOk]
        exact (keywordContext_lookup_isSome headerRow row k).mpr hc
  · decide

/-- Witness for `C5_resolution_characterized` at a concrete pattern,
header and row. -/
theorem C5_witness :
    (FmtPart.auto ∉ [FmtPart.nameF "Title", FmtPart.lit "_", FmtPart.pos 0]) ∧
    (((resolve_filepath [FmtPart.nameF "Title", FmtPart.lit "_", FmtPart.pos 0]
        ["Title"] ["Spot A"]).isOk = true ↔
      ∀ p ∈ [FmtPart.nameF "Title", FmtPart.lit "_", FmtPart.pos 0],
        refOk ["Title"] ["Spot A"] p)) :=
  ⟨by decide, C5_resolution_characterized.1 _ ["Title"] ["Spot A"] (by decide)⟩

/-- Longest common prefix of two character lists. -/
def lcp2 : List Char → List Char → List Char
  | a :: as, b :: bs => if a = b then a :: lcp2 as bs else []
  | _, _ => []

def commonPrefixAllGo (acc : List Char) : List String → List Char
  | [] => acc
  | s :: rest => commonPrefixAllGo (lcp2 acc s.data) rest

/-- `os.path.commonprefix`: the character-wise longest common prefix of
all the paths (the empty string for an empty list). -/
def commonPrefixAll : List String → List Char
  | [] => []
  | s :: rest => commonPrefixAllGo s.data rest

/-- `posixpath.dirname`: everything up to the last `/`, with trailing
slashes stripped unless the head is all slashes. -/
def os_path_dirname (p : String) : String :=
  let headRev := p.data.reverse.dropWhile (fun c => c ≠ '/')
  let head := headRev.reverse
  if head ≠ [] ∧ ¬(head.all (fun c => c = '/')) then
    List.asString ((headRev.dropWhile (fun c => c = '/')).reverse)
  else List.asString head

/-- `PySlater.common_path`:
`os.path.dirname(os.path.commonprefix(paths))`. -/
def common_path (paths : List String) : String :=
  os_path_dirname (List.asString (commonPrefixAll paths))

/-- `posixpath.basename`: everything after the last `/`. -/
def os_path_basename (p : String) : String :=
  List.asString ((p.data.reverse.takeWhile (fun c => c ≠ '/')).reverse)

/-- The root part of `posixpath.splitext` on a path without separators:
drop the extension at the last dot unless every character before that dot
is itself a dot. -/
def stemOf (b : List Char) : List Char :=
  match b.reverse.dropWhile (fun c => c ≠ '.') with
  | [] => b
  | _ :: pre => if pre.all (fun c => c = '.') then b else pre.reverse

/-- `PySlater.filename_no_ext`:
`os.path.splitext(os.path.basename(filepath))[0]`. -/
def filename_no_ext (filepath : String) : String :=
  List.asString (stemOf (os_path_basename filepath).data)

/-- `posixpath.join` for two components. -/
def os_path_join (a b : String) : String :=
  if pyStartswith b "/" then b
  else if a = "" ∨ pyEndswith a "/" then a ++ b
  else a ++ "/" ++ b

/-- Python `str.zfill` for the width-2 padding of `message_row` (the row
numbers here are plain digit strings). -/
def pyZfill (w : Nat) (s : String) : String :=
  if s.length < w then List.asString (List.replicate (w - s.length) '0') ++ s else s

/-- `PySlater.plural`: count-and-name with a trailing `s` for zero or
many. -/
def plural (name : String) (n : Nat) : String :=
  if n = 1 then "1 " ++ name else Nat.repr n ++ " " ++ name ++ "s"

/-- `PySlater.message_row`: the row-prefixed message line. -/
def message_row (row_number : Nat) (args : List String) : String :=
  String.intercalate " " (["Row", pyZfill 2 (Nat.repr (row_number + 1)), "-"] ++ args)

/-- The generated markup line of `write_html_page`: the fixed `html_line`
constant with both `master_name_goes_here` markers replaced by the
entry. -/
def htmlButtonLine (entry : String) : String :=
  "  <button\n        data-clipboard-text=\"" ++ entry ++ "\">" ++ entry ++ "</button>"

/-- `PySlater.write_html_page`, modelled as the list of strings written:
every template line verbatim except the line at the replacement index,
which becomes one generated markup line per entry. -/
def write_html_page_lines (template_html_rows : List String)
    (line_number_to_replace : Nat) (list_of_replacements : List String) : List String :=
  (enumerateFrom 1 template_html_rows).flatMap (fun p =>
    if p.1 = line_number_to_replace then list_of_replacements.map htmlButtonLine
    else [p.2])

/-- The four valid replies of `overwrite_query` (`y`, `n`, `Y`, `N`). -/
inductive Reply
  | y
  | n
  | yAll
  | nAll
deriving DecidableEq

/-- The overwrite decision block of `run` (lines 865-890) as a function of
the existence check, the two persistent flags and (when consulted) the
interactive reply: whether the row proceeds to write, and the updated
flags.  The source's chain of non-exclusive `if` statements gives
`skip_existing` priority over `force_overwrite` when both are set. -/
def overwrite_arbiter (ex force skip : Bool) (reply : Reply) :
    Bool × Bool × Bool :=
  if ex && skip then (false, force, skip)
  else if ex && !force && !skip then
    match reply with
    | .y => (true, force, skip)
    | .n => (false, force, skip)
    | .yAll => (true, true, skip)
    | .nAll => (false, force, true)
  else (true, force, skip)

/-- Python list indexing with negative-index support: `l[i]`. -/
def pyGetIndex (l : List α) (i : Int) : Option α :=
  if 0 ≤ i then l[i.toNat]?
  else if 0 ≤ (l.length : Int) + i then l[((l.length : Int) + i).toNat]? else none

/-- The run environment: the filesystem checks, write success, glob
matching (`fnmatch.fnmatch`) and the interactive user's replies, indexed
by how many prompts have been shown. -/
structure RunEnv where
  isfile : String → Bool
  writeOk : String → Bool
  fnmatch : String → String → Bool
  replies : Nat → Reply

/-- The run configuration after loading: the pattern is supplied already
converted (`<`/`>` to braces) and parsed, the keyword map, TTG template
rows and HTML template rows already read (an unreadable HTML template
reads as `[]`). -/
structure RunCfg where
  csvFile : String
  templateTtg : Option String
  rowHeader : Nat
  rowExclude : List Int
  rowInclude : List Int
  filterExclude : List String
  filterInclude : List String
  forceOverwrite : Bool
  skipExisting : Bool
  dryRun : Bool
  html : Bool
  pattern : List FmtPart
  kw : List (Nat × String)
  ttgRows : List String
  htmlRows : List String

/-- The mutable state of one run: collected results, documents written
(path and lines), manifest files written, messages emitted, the overwrite
flags, and the number of interactive prompts shown so far. -/
structure RunState where
  results : List String
  docs : List (String × List String)
  manifest : List (String × List String)
  msgs : List String
  force : Bool
  skip : Bool
  queries : Nat
deriving DecidableEq

/-- Rendering of an optional path in an f-string (`None` when absent). -/
def renderOptStr : Option String → String
  | none => "None"
  | some s => s

/-- The tail of the row loop from `Proceeding with` onward (lines
863-905): the overwrite block runs only when the keyword map is non-empty,
a proceeding row writes its document unless dry-run or the write raises
`OSError`, and the resolved path is appended to the results
unconditionally. -/
def rowProceed (cfg : RunCfg) (env : RunEnv) (csvRows : List (List String))
    (st : RunState) (idx : Nat) (row : List String) (filepath : String) : RunState :=
  let st1 := { st with
    msgs := st.msgs ++ [message_row idx ["Proceeding with", filename_no_ext filepath]] }
  if cfg.kw = [] then
    { st1 with results := st1.results ++ [filepath] }
  else
    let ex := env.isfile filepath || st1.docs.any (fun d => d.1 = filepath)
    let warn := if ex then [message_row idx ["Warning!", filepath, "already exists!"]]
      else []
    let queried := ex && !st1.force && !st1.skip
    let reply := env.replies st1.queries
    let arb := overwrite_arbiter ex st1.force st1.skip reply
    let q2 := if queried then st1.queries + 1 else st1.queries
    if arb.1 then
      let repl := (((pyGetIndex csvRows ((cfg.rowHeader : Int) - 1)).getD []).zip
        row).reverse
      let failMsg := if ¬cfg.dryRun ∧ env.writeOk filepath = false then
        ["Skipping! Cannot write to this path."] else []
      let docs2 := if ¬cfg.dryRun ∧ env.writeOk filepath = true then
        st1.docs ++ [(filepath, write_ttg cfg.ttgRows cfg.kw repl)] else st1.docs
      { st1 with
        msgs := st1.msgs ++ warn ++ [message_row idx ["Writing out", filepath]] ++ failMsg,
        docs := docs2,
        results := st1.results ++ [filepath],
        force := arb.2.1,
        skip := arb.2.2,
        queries := q2 }
    else
      let skipMsg := if ex && st1.skip then [message_row idx ["Skipping", filepath]]
        else if queried && (reply = Reply.n : Bool) then
          [message_row idx ["Skipping", filepath]]
        else []
      { st1 with
        msgs := st1.msgs ++ warn ++ skipMsg,
        force := arb.2.1,
        skip := arb.2.2,
        queries := q2 }

/-- One iteration of the row loop of `run` (lines 798-905): the skip
guards in source order, then path resolution (`IndexError`/`KeyError`
skip the row; a formatting `ValueError` would escape the loop), the two
glob filters, and the proceed stage. -/
def rowStep (cfg : RunCfg) (env : RunEnv) (csvRows : List (List String))
    (st : RunState) (idx : Nat) (row : List String) : Except FmtErr RunState :=
  if row.all (fun i => i = "") then
    .ok { st with msgs := st.msgs ++ [message_row idx ["Skipping - Empty row"]] }
  else if (cfg.rowHeader : Int) - 1 = (idx : Int) then
    .ok { st with msgs := st.msgs ++ [message_row idx ["Skipping - Header row"]] }
  else if cfg.rowExclude ≠ [] ∧ (idx : Int) ∈ cfg.rowExclude.map (fun x => x - 1) then
    .ok { st with msgs := st.msgs ++ [message_row idx ["Skipping - Row excluded"]] }
  else if cfg.rowInclude ≠ [] ∧ (idx : Int) ∉ cfg.rowInclude.map (fun x => x - 1) then
    .ok { st with msgs := st.msgs ++ [message_row idx ["Skipping - Row not included"]] }
  else
    match resolve_filepath cfg.pattern ((pyGetIndex csvRows 0).getD []) row with
    | .error .value => .error .value
    | .error .index =>
      .ok { st with
        msgs := st.msgs ++ [message_row idx ["Skipping - Could not assemble output path."]] }
    | .error .key =>
      .ok { st with
        msgs := st.msgs ++ [message_row idx ["Skipping - Could not assemble output path."]] }
    | .ok filepath =>
      if cfg.filterExclude ≠ [] ∧
          cfg.filterExclude.any (fun arg => env.fnmatch filepath arg) then
        .ok { st with msgs := st.msgs ++
          [message_row idx [filepath, "matches exclude filter"],
            message_row idx ["Skipping", filepath]] }
      else if cfg.filterInclude ≠ [] ∧
          ¬cfg.filterInclude.any (fun arg => env.fnmatch filepath arg) then
        .ok { st with msgs := st.msgs ++
          [message_row idx [filepath, "does not match include filter"],
            message_row idx ["Skipping", filepath]] }
      else .ok (rowProceed cfg env csvRows st idx row filepath)

/-- The row loop of `run` over the enumerated CSV rows. -/
def runRows (cfg : RunCfg) (env : RunEnv) (csvRows : List (List String)) :
    RunState → List (Nat × List String) → Except FmtErr RunState
  | st, [] => .ok st
  | st, (idx, row) :: rest =>
    match rowStep cfg env csvRows st idx row with
    | .error e => .error e
    | .ok st2 => runRows cfg env csvRows st2 rest

/-- The state at the top of the row loop: no results yet, the
caller-supplied overwrite flags, and the informational messages of lines
786-796. -/
def initState (cfg : RunCfg) (csvRows : List (List String)) : RunState :=
  { results := []
    docs := []
    manifest := []
    msgs :=
      ["Found " ++ plural "keyword" cfg.kw.length ++ " in " ++
          renderOptStr cfg.templateTtg] ++
        (if cfg.kw ≠ [] then [String.intercalate ", " (cfg.kw.map Prod.snd)] else []) ++
        (if csvRows ≠ [] then
          ["Found " ++ plural "row" csvRows.length ++ " in " ++ cfg.csvFile] else [])
    force := cfg.forceOverwrite
    skip := cfg.skipExisting
    queries := 0 }

/-- `PySlater.run`: the row loop followed by the HTML manifest block
(lines 907-922) and the final `Done!` message.  The manifest is written
only when the CSV loaded non-empty, the HTML option is on, the HTML
template read non-empty, and dry-run is off; its destination is the
common parent of all collected results, and its entries are the results'
base names with extensions stripped, computed before the manifest path
itself is appended. -/
def runSlater (cfg : RunCfg) (env : RunEnv) (csvRows : List (List String)) :
    Except FmtErr RunState :=
  match runRows cfg env csvRows (initState cfg csvRows) (enumerateFrom 0 csvRows) with
  | .error e => .error e
  | .ok st =>
    let st2 :=
      if csvRows ≠ [] ∧ cfg.html then
        if ¬cfg.dryRun ∧ cfg.htmlRows ≠ [] then
          { st with
            msgs := st.msgs ++ [String.intercalate " "
              ["Writing out", os_path_join (common_path st.results) "copy_paster.html"]],
            manifest := st.manifest ++
              [(os_path_join (common_path st.results) "copy_paster.html",
                write_html_page_lines cfg.htmlRows 40 (st.results.map filename_no_ext))],
            results := st.results ++
              [os_path_join (common_path st.results) "copy_paster.html"] }
        else st
      else st
    .ok { st2 with msgs := st2.msgs ++ ["Done!"] }

/-- A concrete run configuration used by the orchestrator examples: a
two-row CSV (header + one data row), a named-token pattern, the six-line
example template and its keyword map. -/
def exCfg : RunCfg := {
  csvFile := "data.csv", templateTtg := some "t.ttg", rowHeader := 1,
  rowExclude := [], rowInclude := [], filterExclude := [], filterInclude := [],
  forceOverwrite := false, skipExisting := false, dryRun := false, html := false,
  pattern := [FmtPart.nameF "Title"], kw := [(6, "Name")], ttgRows := exTemplate,
  htmlRows := [] }

/-- An environment where no output path is writable. -/
def exEnvFail : RunEnv := {
  isfile := fun _ => false, writeOk := fun _ => false,
  fnmatch := fun _ _ => false, replies := fun _ => Reply.y }

/-- An environment where every write succeeds. -/
def exEnvOk : RunEnv := { exEnvFail with writeOk := fun _ => true }

/-- An environment where every candidate path already exists. -/
def envExists : RunEnv := { exEnvFail with isfile := fun _ => true }

/-- The concrete two-row CSV table. -/
def exCsv : List (List String) := [["Title"], ["Spot A"]]

/-- Claim C2, counterexample: in a run whose only document write fails
with an I/O error, the failure is reported and no document is written, but
the row's output path `Spot_A` is still appended to the results (the code
appends unconditionally after `write_ttg` swallows the `OSError`). -/
theorem C2_counterexample :
    (runSlater exCfg exEnvFail exCsv).toOption.map
        (fun s => (s.results, s.docs)) = some (["Spot_A"], []) ∧
    ((runSlater exCfg exEnvFail exCsv).toOption.map (fun s => s.msgs)).getD [] =
      ["Found 1 keyword in t.ttg", "Name", "Found 2 rows in data.csv",
        "Row 01 - Skipping - Header row", "Row 02 - Proceeding with Spot_A",
        "Row 02 - Writing out Spot_A", "Skipping! Cannot write to this path.",
        "Done!"] := by
  constructor
  · decide
  · decide

/-- Claim C2 (amended): a per-document write failure is row-local — the
row step still returns normally with the failure reported — but the failed
row's path is appended to the results and thus reaches the manifest
names. -/
theorem getLast_cons_append_pair {α : Type} (a m1 m2 : α) (W : List α) :
    (a :: (W ++ [m1, m2])).getLast? = some m2 := by
  have h : a :: (W ++ [m1, m2]) = (a :: (W ++ [m1])) ++ [m2] := by
    simp
  rw [h]
  exact List.getLast?_concat _

theorem C2_write_failure_row_local (cfg : RunCfg) (env : RunEnv)
    (csvRows : List (List String)) (st : RunState) (idx : Nat)
    (row : List String) (filepath : String)
    (h1 : row.all (fun i => i = "") = false)
    (h2 : ¬((cfg.rowHeader : Int) - 1 = (idx : Int)))
    (h3 : ¬(cfg.rowExclude ≠ [] ∧ (idx : Int) ∈ cfg.rowExclude.map (fun x => x - 1)))
    (h4 : ¬(cfg.rowInclude ≠ [] ∧ (idx : Int) ∉ cfg.rowInclude.map (fun x => x - 1)))
    (h5 : resolve_filepath cfg.pattern ((pyGetIndex csvRows 0).getD []) row =
      .ok filepath)
    (h6 : ¬(cfg.filterExclude ≠ [] ∧
      cfg.filterExclude.any (fun arg => env.fnmatch filepath arg)))
    (h7 : ¬(cfg.filterInclude ≠ [] ∧
      ¬cfg.filterInclude.any (fun arg => env.fnmatch filepath arg)))
    (hkw : ¬cfg.kw = [])
    (harb : (overwrite_arbiter
      (env.isfile filepath || st.docs.any (fun d => d.1 = filepath))
      st.force st.skip (env.replies st.queries)).1 = true)
    (hdry : cfg.dryRun = false)
    (hfail : env.writeOk filepath = false) :
    rowStep cfg env csvRows st idx row =
      .ok (rowProceed cfg env csvRows st idx row filepath) ∧
    (rowProceed cfg env csvRows st idx row filepath).results =
      st.results ++ [filepath] ∧
    (rowProceed cfg env csvRows st idx row filepath).docs = st.docs ∧
    (rowProceed cfg env csvRows st idx row filepath).msgs.getLast? =
      some "Skipping! Cannot write to this path." := by
  refine ⟨?_, ?_, ?_, ?_⟩
  · rw [rowStep]
    rw [if_neg (by rw [h1]; simp), if_neg h2, if_neg h3, if_neg h4]
    simp only [h5]
    rw [if_neg h6, if_neg h7]
  · simp only [rowProceed, if_neg hkw, harb, if_pos rfl]
    simp [hdry, hfail]
  · simp only [rowProceed, if_neg hkw, harb, if_pos rfl]
    simp [hdry, hfail]
  · simp only [rowProceed, if_neg hkw, harb, if_pos rfl]
    simp only [hdry, hfail]
    simp only [not_false_iff, true_and, if_pos, if_neg, Bool.false_eq_true]
    simp
    exact getLast_cons_append_pair _ _ _ _

/-- Witness for `C2_write_failure_row_local` on the concrete failed-write
run. -/
theorem C2_write_failure_witness :
    ((["Spot A"] : List String).all (fun i => i = "") = false) ∧
    (resolve_filepath exCfg.pattern ((pyGetIndex exCsv 0).getD []) ["Spot A"] =
      .ok "Spot_A") ∧
    ((overwrite_arbiter
      (exEnvFail.isfile "Spot_A" ||
        (initState exCfg exCsv).docs.any (fun d => d.1 = "Spot_A"))
      (initState exCfg exCsv).force (initState exCfg exCsv).skip
      (exEnvFail.replies (initState exCfg exCsv).queries)).1 = true) ∧
    (exEnvFail.writeOk "Spot_A" = false) ∧
    (rowStep exCfg exEnvFail exCsv (initState exCfg exCsv) 1 ["Spot A"] =
      .ok (rowProceed exCfg exEnvFail exCsv (initState exCfg exCsv) 1 ["Spot A"]
        "Spot_A") ∧
    (rowProceed exCfg exEnvFail exCsv (initState exCfg exCsv) 1 ["Spot A"]
      "Spot_A").results = (initState exCfg exCsv).results ++ ["Spot_A"] ∧
    (rowProceed exCfg exEnvFail exCsv (initState exCfg exCsv) 1 ["Spot A"]
      "Spot_A").docs = (initState exCfg exCsv).docs ∧
    (rowProceed exCfg exEnvFail exCsv (initState exCfg exCsv) 1 ["Spot A"]
      "Spot_A").msgs.getLast? = some "Skipping! Cannot write to this path.") :=
  ⟨by decide, by decide, by decide, by decide,
    C2_write_failure_row_local exCfg exEnvFail exCsv (initState exCfg exCsv) 1
      ["Spot A"] "Spot_A" (by decide) (by decide) (by decide) (by decide) (by decide)
      (by decide) (by decide) (by decide) (by decide) (by decide) (by decide)⟩

/-- A loop state in which both overwrite flags are set. -/
def stBothFlags : RunState :=
  { results := [], docs := [], manifest := [], msgs := [],
    force := true, skip := true, queries := 0 }

/-- Claim C3, counterexample: with an existing target and both
`force_overwrite` and `skip_existing` set, the arbiter does not proceed to
write — `skip_existing` wins — and the concrete row is skipped without its
path entering the results. -/
theorem C3_counterexample :
    (overwrite_arbiter true true true Reply.y).1 = false ∧
    (rowStep exCfg envExists exCsv stBothFlags 1 ["Spot A"]).toOption.map
      (fun s => (s.results, s.docs)) = some ([], []) := by
  constructor
  · decide
  · decide

/-- Claim C3 (amended): the overwrite block checks the flags with
sequential non-exclusive `if` statements, so when the path exists
`skip_existing` takes precedence: the row is skipped whenever
`skip_existing` is set (even together with `force_overwrite`); it proceeds
when only `force_overwrite` is set; with neither set the decision defers
to the interactive reply (`y`/`Y` proceed, `n`/`N` skip, the `all`
replies latching the corresponding flag). -/
theorem C3_skip_existing_wins :
    ∀ (e f s : Bool) (r : Reply),
      overwrite_arbiter e f s r =
        (if e = false then (true, f, s)
         else if s then (false, f, s)
         else if f then (true, f, s)
         else match r with
           | Reply.y => (true, f, s)
           | Reply.n => (false, f, s)
           | Reply.yAll => (true, true, s)
           | Reply.nAll => (false, f, true)) := by
  intro e f s r
  cases e <;> cases f <;> cases s <;> cases r <;> rfl

theorem rowProceed_manifest (cfg : RunCfg) (env : RunEnv)
    (csvRows : List (List String)) (st : RunState) (idx : Nat)
    (row : List String) (filepath : String) :
    (rowProceed cfg env csvRows st idx row filepath).manifest = st.manifest := by
  simp only [rowProceed]
  split
  · rfl
  · split
    · rfl
    · rfl

theorem rowStep_manifest (cfg : RunCfg) (env : RunEnv)
    (csvRows : List (List String)) (st : RunState) (idx : Nat)
    (row : List String) (st2 : RunState) :
    rowStep cfg env csvRows st idx row = .ok st2 → st2.manifest = st.manifest := by
  intro h
  rw [rowStep] at h
  split at h
  · injection h with h2
    subst h2
    rfl
  · split at h
    · injection h with h2
      subst h2
      rfl
    · split at h
      · injection h with h2
        subst h2
        rfl
      · split at h
        · injection h with h2
          subst h2
          rfl
        · split at h
          · cases h
          · injection h with h2
            subst h2
            rfl
          · injection h with h2
            subst h2
            rfl
          · split at h
            · injection h with h2
              subst h2
              rfl
            · split at h
              · injection h with h2
                subst h2
                rfl
              · injection h with h2
                subst h2
                exact rowProceed_manifest cfg env csvRows st idx row _

theorem runRows_manifest (cfg : RunCfg) (env : RunEnv)
    (csvRows : List (List String)) :
    ∀ (l : List (Nat × List String)) (st st2 : RunState),
      runRows cfg env csvRows st l = .ok st2 → st2.manifest = st.manifest := by
  intro l
  induction l with
  | nil =>
    intro st st2 h
    rw [runRows] at h
    injection h with h2
    subst h2
    rfl
  | cons p rest ih =>
    intro st st2 h
    obtain ⟨idx, row⟩ := p
    rw [runRows] at h
    match hstep : rowStep cfg env csvRows st idx row with
    | .error e =>
      rw [hstep] at h
      cases h
    | .ok stm =>
      rw [hstep] at h
      have h1 := ih stm st2 h
      have h2 := rowStep_manifest cfg env csvRows st idx row stm hstep
      rw [h1, h2]

/-- Claim C9, counterexample: a run with a document template configured
and dry-run off, but with the HTML option disabled, writes no manifest and
its results do not end with a manifest path, so the claim's precondition
is wrong — the manifest step is governed by the HTML option (and the CSV
and HTML template loads), not by the document template. -/
theorem C9_counterexample :
    (runSlater exCfg exEnvOk exCsv).toOption.map
      (fun s => (s.results, s.manifest)) = some (["Spot_A"], []) := by
  decide

/-- Claim C9 (amended): for every run whose CSV loaded non-empty, whose
HTML option is enabled, whose HTML template read non-empty and with
dry-run off, after all rows are processed the manifest is written exactly
once using every collected path's base name with extension stripped, at
the common parent directory of the collected paths, and the final results
are the row-loop results in row order followed by the manifest path
last. -/
theorem C9_manifest_once (cfg : RunCfg) (env : RunEnv)
    (csvRows : List (List String)) (st : RunState)
    (hloop : runRows cfg env csvRows (initState cfg csvRows)
      (enumerateFrom 0 csvRows) = .ok st)
    (hcsv : csvRows ≠ []) (hhtml : cfg.html = true) (hdry : cfg.dryRun = false)
    (hrows : cfg.htmlRows ≠ []) :
    runSlater cfg env csvRows = .ok { st with
      msgs := (st.msgs ++ [String.intercalate " "
        ["Writing out", os_path_join (common_path st.results) "copy_paster.html"]]) ++
        ["Done!"],
      manifest := [(os_path_join (common_path st.results) "copy_paster.html",
        write_html_page_lines cfg.htmlRows 40 (st.results.map filename_no_ext))],
      results := st.results ++
        [os_path_join (common_path st.results) "copy_paster.html"] } := by
  have hman : st.manifest = [] :=
    runRows_manifest cfg env csvRows (enumerateFrom 0 csvRows) (initState cfg csvRows)
      st hloop
  rw [runSlater]
  rw [hloop]
  simp only [if_pos (And.intro hcsv hhtml)]
  have hcond : ¬cfg.dryRun = true ∧ cfg.htmlRows ≠ [] := ⟨by rw [hdry]; simp, hrows⟩
  simp only [if_pos hcond]
  rw [hman]
  rfl

/-- The example configuration with the HTML manifest enabled. -/
def exCfgHtml : RunCfg := { exCfg with html := true, htmlRows := ["<html>"] }

/-- The state after the row loop of the HTML-enabled example run. -/
def exLoopState : RunState := {
  results := ["Spot_A"],
  docs := [("Spot_A", ["A", "B", "C", "D", "TextLength 0", "Text "])],
  manifest := [],
  msgs := ["Found 1 keyword in t.ttg", "Name", "Found 2 rows in data.csv",
    "Row 01 - Skipping - Header row", "Row 02 - Proceeding with Spot_A",
    "Row 02 - Writing out Spot_A"],
  force := false, skip := false, queries := 0 }

/-- Witness for `C9_manifest_once` on the concrete HTML-enabled run. -/
theorem C9_manifest_once_witness :
    (runRows exCfgHtml exEnvOk exCsv (initState exCfgHtml exCsv)
      (enumerateFrom 0 exCsv) = .ok exLoopState) ∧
    (exCsv ≠ []) ∧ (exCfgHtml.html = true) ∧ (exCfgHtml.dryRun = false) ∧
    (exCfgHtml.htmlRows ≠ []) ∧
    runSlater exCfgHtml exEnvOk exCsv = .ok { exLoopState with
      msgs := (exLoopState.msgs ++ [String.intercalate " "
        ["Writing out",
          os_path_join (common_path exLoopState.results) "copy_paster.html"]]) ++
        ["Done!"],
      manifest := [(os_path_join (common_path exLoopState.results) "copy_paster.html",
        write_html_page_lines exCfgHtml.htmlRows 40
          (exLoopState.results.map filename_no_ext))],
      results := exLoopState.results ++
        [os_path_join (common_path exLoopState.results) "copy_paster.html"] } :=
  ⟨by decide, by decide, by decide, by decide, by decide,
    C9_manifest_once exCfgHtml exEnvOk exCsv exLoopState (by decide) (by decide)
      (by decide) (by decide) (by decide)⟩
